import Mathlib

/-!
Verification of the sysrepo coordination core (Lock Manager, Commit
Coordinator, Change Dispatcher, Diff/Change Iterator) against its
natural-language specification.

The repository ships the public API header `src/sysrepo.h` (the enums and
declarations embedded below) and the lock test `tests/test_lock.c`; the
engine behind the declarations is not part of the repository, so its
behavior is modelled from the specification, faithfully to the header's
documented semantics and to the test's expected results.
-/

/-- Sysrepo error codes, embedded from `sr_error_t` in `src/sysrepo.h`. -/
inductive sr_error_t where
  | SR_ERR_OK
  | SR_ERR_INVAL_ARG
  | SR_ERR_LY
  | SR_ERR_SYS
  | SR_ERR_NOMEM
  | SR_ERR_NOT_FOUND
  | SR_ERR_EXISTS
  | SR_ERR_INTERNAL
  | SR_ERR_INIT_FAILED
  | SR_ERR_UNSUPPORTED
  | SR_ERR_UNKNOWN_MODEL
  | SR_ERR_BAD_ELEMENT
  | SR_ERR_VALIDATION_FAILED
  | SR_ERR_OPERATION_FAILED
  | SR_ERR_UNAUTHORIZED
  | SR_ERR_LOCKED
  | SR_ERR_TIME_OUT
  | SR_ERR_CALLBACK_FAILED
  deriving DecidableEq, Repr

/-- A lock record `(scope, holder_session_id, acquired_at)` as described by the
spec's data model.  The scope mirrors the `module_name` argument of `sr_lock`:
`none` is the sentinel for "all modules", `some m` a single module. -/
structure LockRecord where
  scope : Option String
  holder : Nat
  acquired_at : Nat
  deriving DecidableEq, Repr

/-- The shared lock table of one datastore: the list of live lock records. -/
abbrev LockState := List LockRecord

/-- Modelled from the spec (§4.1 Lock Manager): the conflict test between an
existing lock record's scope and a requested scope.  A per-module request
conflicts with an existing lock on that module or an existing all-scope lock
by anyone; an all-scope request conflicts with any existing lock.  The
implementation of the lock manager is not in the repository (only the
declarations in `src/sysrepo.h` and the test `tests/test_lock.c`). -/
def scopeConflicts (existing requested : Option String) : Bool :=
  match existing, requested with
  | none, _ => true
  | some _, none => true
  | some m, some m' => m = m'

/-- Modelled from the spec (§4.1 Lock Manager): `sr_lock`.  Fails with
`SR_ERR_LOCKED` if the requested scope conflicts with any existing lock; on
success inserts a lock record for the session.  The C implementation of
`sr_lock` is not in the repository; this follows the spec and
`tests/test_lock.c`. -/
def sr_lock (sid : Nat) (module_name : Option String) (now : Nat) (st : LockState) :
    sr_error_t × LockState :=
  if st.any (fun r => scopeConflicts r.scope module_name) then
    (.SR_ERR_LOCKED, st)
  else
    (.SR_ERR_OK, st ++ [⟨module_name, sid, now⟩])

/-- Modelled from the spec (§4.1 Lock Manager): `sr_unlock`.  Fails with
`SR_ERR_OPERATION_FAILED` (not `SR_ERR_LOCKED`) if the session does not
currently hold a lock exactly matching the requested scope; on success removes
the record.  The C implementation of `sr_unlock` is not in the repository. -/
def sr_unlock (sid : Nat) (module_name : Option String) (st : LockState) :
    sr_error_t × LockState :=
  if st.any (fun r => r.holder = sid && r.scope = module_name) then
    (.SR_ERR_OK, st.eraseP (fun r => r.holder = sid && r.scope = module_name))
  else
    (.SR_ERR_OPERATION_FAILED, st)

/-- The conflict relation in the words of the spec: a per-module request for
`name` conflicts with an existing record holding that module or holding the
all-scope lock; an all-scope request conflicts with any existing record. -/
def requestConflict (r : LockRecord) (module_name : Option String) : Prop :=
  match module_name with
  | some name => r.scope = some name ∨ r.scope = none
  | none => True

instance (r : LockRecord) (m : Option String) : Decidable (requestConflict r m) := by
  unfold requestConflict
  cases m <;> infer_instance

theorem scopeConflicts_iff (r : LockRecord) (m : Option String) :
    scopeConflicts r.scope m = true ↔ requestConflict r m := by
  cases h : r.scope <;> cases m <;>
    simp [scopeConflicts, requestConflict, h]

/-- A single-session lock or unlock call (the `module_name` argument of
`sr_lock`/`sr_unlock`; `none` targets all modules). -/
inductive LockOp where
  | lk (module_name : Option String)
  | unlk (module_name : Option String)
  deriving DecidableEq, Repr

/-- Run a sequence of lock/unlock calls of one session against the lock table,
collecting each call's error code, as `tests/test_lock.c` does. -/
def runLockOps (sid : Nat) : List LockOp → LockState → List sr_error_t × LockState
  | [], st => ([], st)
  | .lk m :: ops, st =>
    let p := sr_lock sid m 0 st
    let q := runLockOps sid ops p.2
    (p.1 :: q.1, q.2)
  | .unlk m :: ops, st =>
    let p := sr_unlock sid m st
    let q := runLockOps sid ops p.2
    (p.1 :: q.1, q.2)

theorem lock_any_iff (m : Option String) (st : LockState) :
    (st.any (fun r => scopeConflicts r.scope m) = true) ↔ ∃ r ∈ st, requestConflict r m := by
  rw [List.any_eq_true]
  constructor
  · rintro ⟨r, hr, hc⟩; exact ⟨r, hr, (scopeConflicts_iff r m).1 hc⟩
  · rintro ⟨r, hr, hc⟩; exact ⟨r, hr, (scopeConflicts_iff r m).2 hc⟩

/-- C1: `Lock(session, scope)` fails with `SR_ERR_LOCKED` exactly when the
requested scope conflicts with an existing lock (a per-module request
conflicts with a lock on that module or an all-scope lock held by anyone,
including the requester; an all-scope request conflicts with any existing
lock); on success (`SR_ERR_OK`) a lock record for the session is inserted. -/
theorem sr_lock_spec (sid : Nat) (m : Option String) (now : Nat) (st : LockState) :
    ((sr_lock sid m now st).1 = .SR_ERR_LOCKED ↔ ∃ r ∈ st, requestConflict r m) ∧
    ((¬ ∃ r ∈ st, requestConflict r m) →
      (sr_lock sid m now st).1 = .SR_ERR_OK ∧
      (sr_lock sid m now st).2 = st ++ [⟨m, sid, now⟩]) := by
  by_cases h : st.any (fun r => scopeConflicts r.scope m) = true
  · have h1 : (sr_lock sid m now st).1 = .SR_ERR_LOCKED := by simp [sr_lock, h]
    exact ⟨iff_of_true h1 ((lock_any_iff m st).1 h),
      fun hn => absurd ((lock_any_iff m st).1 h) hn⟩
  · have h1 : (sr_lock sid m now st).1 = .SR_ERR_OK := by simp [sr_lock, h]
    refine ⟨iff_of_false (by simp [h1]) (fun hex => h ((lock_any_iff m st).2 hex)), ?_⟩
    intro _
    exact ⟨h1, by simp [sr_lock, h]⟩

/-- C1 witness: on the empty lock table a per-module lock request succeeds and
inserts the record. -/
theorem sr_lock_spec_witness :
    (sr_lock 1 (some "test") 0 []).1 = .SR_ERR_OK ∧
    (sr_lock 1 (some "test") 0 []).2 = [⟨some "test", 1, 0⟩] :=
  (sr_lock_spec 1 (some "test") 0 []).2 (by simp)

theorem unlock_any_iff (sid : Nat) (m : Option String) (st : LockState) :
    (st.any (fun r => r.holder = sid && r.scope = m) = true) ↔
      ∃ r ∈ st, r.holder = sid ∧ r.scope = m := by
  rw [List.any_eq_true]
  simp

/-- C2: `Unlock(session, scope)` fails with `SR_ERR_OPERATION_FAILED` — never
with `SR_ERR_LOCKED` — exactly when the session does not currently hold a lock
matching the requested scope; on success (`SR_ERR_OK`) one matching lock
record is removed from the table. -/
theorem sr_unlock_spec (sid : Nat) (m : Option String) (st : LockState) :
    ((sr_unlock sid m st).1 = .SR_ERR_OPERATION_FAILED ↔
      ¬ ∃ r ∈ st, r.holder = sid ∧ r.scope = m) ∧
    (sr_unlock sid m st).1 ≠ .SR_ERR_LOCKED ∧
    ((∃ r ∈ st, r.holder = sid ∧ r.scope = m) →
      (sr_unlock sid m st).1 = .SR_ERR_OK ∧
      ∃ r l₁ l₂, r.holder = sid ∧ r.scope = m ∧ st = l₁ ++ r :: l₂ ∧
        (sr_unlock sid m st).2 = l₁ ++ l₂) := by
  by_cases h : st.any (fun r => r.holder = sid && r.scope = m) = true
  · have h1 : (sr_unlock sid m st).1 = .SR_ERR_OK := by simp [sr_unlock, h]
    refine ⟨iff_of_false (by simp [h1]) (fun hn => hn ((unlock_any_iff sid m st).1 h)),
      by simp [h1], ?_⟩
    intro _
    refine ⟨h1, ?_⟩
    obtain ⟨r, hr, hh, hs⟩ := (unlock_any_iff sid m st).1 h
    obtain ⟨r', l₁, l₂, _, hp, hsplit, herase⟩ :=
      List.exists_of_eraseP (p := fun r => r.holder = sid && r.scope = m) hr
        (by simp [hh, hs])
    simp only [Bool.and_eq_true, decide_eq_true_eq] at hp
    refine ⟨r', l₁, l₂, hp.1, hp.2, hsplit, ?_⟩
    simpa [sr_unlock, h] using herase
  · have h1 : (sr_unlock sid m st).1 = .SR_ERR_OPERATION_FAILED := by simp [sr_unlock, h]
    refine ⟨iff_of_true h1 (fun hex => h ((unlock_any_iff sid m st).2 hex)),
      by simp [h1], ?_⟩
    intro hex
    exact absurd ((unlock_any_iff sid m st).2 hex) h

/-- C2 witness: a session unlocking a module it holds succeeds and removes the
record. -/
theorem sr_unlock_spec_witness :
    (sr_unlock 1 (some "test") [⟨some "test", 1, 0⟩]).1 = .SR_ERR_OK ∧
    ∃ r l₁ l₂, r.holder = 1 ∧ r.scope = some "test" ∧
      ([⟨some "test", 1, 0⟩] : LockState) = l₁ ++ r :: l₂ ∧
      (sr_unlock 1 (some "test") [⟨some "test", 1, 0⟩]).2 = l₁ ++ l₂ :=
  (sr_unlock_spec 1 (some "test") [⟨some "test", 1, 0⟩]).2.2
    ⟨⟨some "test", 1, 0⟩, by simp⟩

/-- C6: starting from a fresh session holding no locks, the literal call
sequence of `tests/test_lock.c` `test_one_session` yields exactly the error
codes the test asserts — in particular a session re-requesting the all-scope
lock it already holds receives `SR_ERR_LOCKED` — and ends with an empty lock
table. -/
theorem one_session_scenario :
    runLockOps 1
      [.lk none, .lk none, .lk (some "test"), .unlk none, .lk (some "test"),
       .lk (some "when1"), .unlk (some "when2"), .lk none, .unlk none,
       .unlk (some "test"), .unlk (some "when1")] []
    = ([.SR_ERR_OK, .SR_ERR_LOCKED, .SR_ERR_LOCKED, .SR_ERR_OK, .SR_ERR_OK,
        .SR_ERR_OK, .SR_ERR_OPERATION_FAILED, .SR_ERR_LOCKED,
        .SR_ERR_OPERATION_FAILED, .SR_ERR_OK, .SR_ERR_OK], []) := by
  decide

/-- Modelled from the spec (§4.1): read operations (`sr_get_subtree` and the
other Data Retrieval calls) never consult the lock table; locks gate only
writes and commits.  The implementation of `sr_get_subtree` is not in the
repository (only its declaration in `src/sysrepo.h` and its use in
`tests/test_lock.c`); the read returns the datastore content unconditionally. -/
def sr_get_subtree (sid : Nat) (st : LockState) (storage : Nat) : sr_error_t × Nat :=
  (.SR_ERR_OK, storage)

/-- C5: read operations always succeed regardless of locks held by any
session; in particular, in the two-session scenario of `test_two_sessions`,
after session 1 takes the all-scope lock, session 2's lock attempt fails with
`SR_ERR_LOCKED` but its read still succeeds, and after session 1 unlocks all
no lock record remains. -/
theorem reads_never_blocked :
    (∀ (sid : Nat) (st : LockState) (storage : Nat),
      (sr_get_subtree sid st storage).1 = .SR_ERR_OK) ∧
    ((sr_lock 1 none 0 []).1 = .SR_ERR_OK ∧
      (sr_lock 2 none 1 (sr_lock 1 none 0 []).2).1 = .SR_ERR_LOCKED ∧
      (sr_get_subtree 2 (sr_lock 1 none 0 []).2 37).1 = .SR_ERR_OK ∧
      (sr_unlock 1 none (sr_lock 1 none 0 []).2).1 = .SR_ERR_OK ∧
      (sr_unlock 1 none (sr_lock 1 none 0 []).2).2 = []) :=
  ⟨fun _ _ _ => rfl, by decide⟩

/-- Two lock scopes that may lawfully coexist in one datastore's table: an
all-scope lock coexists with nothing, and two per-module locks must target
different modules. -/
def scopesCoexist (s1 s2 : Option String) : Prop :=
  match s1, s2 with
  | none, _ => False
  | _, none => False
  | some a, some b => a ≠ b

/-- The lock-table invariant of the spec's data model: every two records in
the table have coexisting scopes. -/
def LockInvariant (st : LockState) : Prop :=
  st.Pairwise (fun r1 r2 => scopesCoexist r1.scope r2.scope)

/-- Lock-table states reachable from the empty table through `sr_lock` and
`sr_unlock` calls. -/
inductive ReachableLockState : LockState → Prop where
  | empty : ReachableLockState []
  | lock (sid : Nat) (m : Option String) (now : Nat) {st : LockState} :
      ReachableLockState st → ReachableLockState (sr_lock sid m now st).2
  | unlock (sid : Nat) (m : Option String) {st : LockState} :
      ReachableLockState st → ReachableLockState (sr_unlock sid m st).2

theorem scopeConflicts_false_iff (s1 s2 : Option String) :
    scopeConflicts s1 s2 = false ↔ scopesCoexist s1 s2 := by
  cases s1 <;> cases s2 <;> simp [scopeConflicts, scopesCoexist]

theorem scopesCoexist_symm : Symmetric (fun r1 r2 : LockRecord =>
    scopesCoexist r1.scope r2.scope) := by
  intro r1 r2 h
  cases h1 : r1.scope <;> cases h2 : r2.scope <;>
    simp_all [scopesCoexist]
  exact fun he => h (he ▸ rfl)

theorem sr_lock_preserves_invariant (sid : Nat) (m : Option String) (now : Nat)
    (st : LockState) (h : LockInvariant st) :
    LockInvariant (sr_lock sid m now st).2 := by
  by_cases hc : st.any (fun r => scopeConflicts r.scope m) = true
  · simpa [sr_lock, hc] using h
  · have h2 : (sr_lock sid m now st).2 = st ++ [⟨m, sid, now⟩] := by
      simp [sr_lock, hc]
    rw [LockInvariant, h2, List.pairwise_append]
    refine ⟨h, List.pairwise_singleton _ _, ?_⟩
    intro r hr b hb
    simp only [List.mem_singleton] at hb
    subst hb
    have : scopeConflicts r.scope m = false := by
      by_contra hne
      exact hc (List.any_eq_true.2 ⟨r, hr, by
        cases hx : scopeConflicts r.scope m
        · exact absurd hx hne
        · rfl⟩)
    exact (scopeConflicts_false_iff r.scope m).1 this

theorem sr_unlock_preserves_invariant (sid : Nat) (m : Option String)
    (st : LockState) (h : LockInvariant st) :
    LockInvariant (sr_unlock sid m st).2 := by
  by_cases hc : st.any (fun r => r.holder = sid && r.scope = m) = true
  · have h2 : (sr_unlock sid m st).2 =
        st.eraseP (fun r => r.holder = sid && r.scope = m) := by
      simp [sr_unlock, hc]
    rw [LockInvariant, h2]
    exact h.sublist (List.eraseP_sublist st)
  · simpa [sr_unlock, hc] using h

/-- C7: every lock-table state reachable through `sr_lock`/`sr_unlock` from
the empty table satisfies the invariant; both operations preserve it; and the
invariant means at most one record covers any given module (so at most one
session holds a lock on it) and an all-scope record coexists with no
per-module record. -/
theorem lock_table_invariant (st : LockState) (hr : ReachableLockState st) :
    LockInvariant st ∧
    (∀ sid m now, LockInvariant (sr_lock sid m now st).2) ∧
    (∀ sid m, LockInvariant (sr_unlock sid m st).2) ∧
    (∀ name r1 r2, r1 ∈ st → r2 ∈ st →
      (r1.scope = some name ∨ r1.scope = none) →
      (r2.scope = some name ∨ r2.scope = none) → r1 = r2) ∧
    (∀ r1 r2, r1 ∈ st → r2 ∈ st → r1.scope = none → ∀ name, r2.scope ≠ some name) := by
  have hinv : LockInvariant st := by
    induction hr with
    | empty => exact List.Pairwise.nil
    | lock sid m now _ ih => exact sr_lock_preserves_invariant sid m now _ ih
    | unlock sid m _ ih => exact sr_unlock_preserves_invariant sid m _ ih
  refine ⟨hinv, fun sid m now => sr_lock_preserves_invariant sid m now st hinv,
    fun sid m => sr_unlock_preserves_invariant sid m st hinv, ?_, ?_⟩
  · intro name r1 r2 h1 h2 hc1 hc2
    by_contra hne
    have hco := hinv.forall scopesCoexist_symm h1 h2 hne
    rcases hc1 with hs1 | hs1 <;> rcases hc2 with hs2 | hs2 <;>
      simp [hs1, hs2, scopesCoexist] at hco
  · intro r1 r2 h1 h2 hs1 name hs2
    by_cases hne : r1 = r2
    · rw [hne, hs2] at hs1; cases hs1
    · have hco := hinv.forall scopesCoexist_symm h1 h2 hne
      rw [hs1, hs2] at hco
      simp [scopesCoexist] at hco

/-- C7 witness: the table reached by locking module `test` on the empty table
satisfies the invariant and its consequences. -/
theorem lock_table_invariant_witness :
    LockInvariant (sr_lock 1 (some "test") 0 []).2 ∧
    (∀ sid m now, LockInvariant (sr_lock sid m now (sr_lock 1 (some "test") 0 []).2).2) ∧
    (∀ sid m, LockInvariant (sr_unlock sid m (sr_lock 1 (some "test") 0 []).2).2) ∧
    (∀ name r1 r2, r1 ∈ (sr_lock 1 (some "test") 0 []).2 →
      r2 ∈ (sr_lock 1 (some "test") 0 []).2 →
      (r1.scope = some name ∨ r1.scope = none) →
      (r2.scope = some name ∨ r2.scope = none) → r1 = r2) ∧
    (∀ r1 r2, r1 ∈ (sr_lock 1 (some "test") 0 []).2 →
      r2 ∈ (sr_lock 1 (some "test") 0 []).2 → r1.scope = none →
      ∀ name, r2.scope ≠ some name) :=
  lock_table_invariant _ (ReachableLockState.lock 1 (some "test") 0 ReachableLockState.empty)

/-- Type of the operation made on an item, embedded from `sr_change_oper_t`
in `src/sysrepo.h`. -/
inductive sr_change_oper_t where
  | SR_OP_CREATED
  | SR_OP_MODIFIED
  | SR_OP_DELETED
  | SR_OP_MOVED
  deriving DecidableEq, Repr

/-- A change record of a diff: operation tag, prior value (absent if created)
and new value (absent if deleted), per the spec's data model.  Values are
rendered as strings. -/
structure ChangeRec where
  oper : sr_change_oper_t
  old_value : Option String
  new_value : Option String
  deriving DecidableEq, Repr

/-- Modelled from the spec (§4.4 Diff/Change Iterator): the iterator of
`sr_get_changes_iter` is the sequence of change records captured at
event-construction time together with a forward-only cursor.  The C
implementation (`sr_change_iter_s`) is not in the repository. -/
structure sr_change_iter_t where
  changes : List ChangeRec
  idx : Nat
  deriving DecidableEq, Repr

/-- Modelled from the spec: `sr_get_change_next` returns the next change of
the iterator, or `SR_ERR_NOT_FOUND` with the iterator untouched when no item
is left, as documented on its declaration in `src/sysrepo.h`.  The
implementation is not in the repository. -/
def sr_get_change_next (iter : sr_change_iter_t) :
    sr_error_t × Option ChangeRec × sr_change_iter_t :=
  match iter.changes[iter.idx]? with
  | some c => (.SR_ERR_OK, some c, ⟨iter.changes, iter.idx + 1⟩)
  | none => (.SR_ERR_NOT_FOUND, none, iter)

/-- Advance the iterator through one `sr_get_change_next` pull. -/
def pullNext (iter : sr_change_iter_t) : sr_change_iter_t :=
  (sr_get_change_next iter).2.2

/-- C8: once an iterator is exhausted, `sr_get_change_next` returns
`SR_ERR_NOT_FOUND` with no change record and leaves the iterator unchanged,
and repeated pulls past the end keep returning `SR_ERR_NOT_FOUND` with no side
effects. -/
theorem iterator_exhausted_idempotent (iter : sr_change_iter_t)
    (h : iter.changes.length ≤ iter.idx) :
    sr_get_change_next iter = (.SR_ERR_NOT_FOUND, none, iter) ∧
    (∀ n : Nat, pullNext^[n] iter = iter ∧
      sr_get_change_next (pullNext^[n] iter) = (.SR_ERR_NOT_FOUND, none, iter)) := by
  have hnone : iter.changes[iter.idx]? = none := List.getElem?_eq_none h
  have hone : sr_get_change_next iter = (.SR_ERR_NOT_FOUND, none, iter) := by
    rw [sr_get_change_next, hnone]
  refine ⟨hone, ?_⟩
  intro n
  induction n with
  | zero => exact ⟨rfl, hone⟩
  | succ k ih =>
    have hstep : pullNext^[k + 1] iter = iter := by
      rw [Function.iterate_succ_apply', ih.1, pullNext, hone]
    exact ⟨hstep, by rw [hstep]; exact hone⟩

/-- C8 witness: a single-record iterator whose cursor is past the end. -/
theorem iterator_exhausted_idempotent_witness :
    sr_get_change_next ⟨[⟨.SR_OP_CREATED, none, some "v"⟩], 1⟩ =
      (.SR_ERR_NOT_FOUND, none, ⟨[⟨.SR_OP_CREATED, none, some "v"⟩], 1⟩) ∧
    (∀ n : Nat, pullNext^[n] ⟨[⟨.SR_OP_CREATED, none, some "v"⟩], 1⟩ =
        ⟨[⟨.SR_OP_CREATED, none, some "v"⟩], 1⟩ ∧
      sr_get_change_next (pullNext^[n] ⟨[⟨.SR_OP_CREATED, none, some "v"⟩], 1⟩) =
        (.SR_ERR_NOT_FOUND, none, ⟨[⟨.SR_OP_CREATED, none, some "v"⟩], 1⟩)) :=
  iterator_exhausted_idempotent ⟨[⟨.SR_OP_CREATED, none, some "v"⟩], 1⟩ (by decide)

/-- The sibling that `x` immediately follows in `l`: the element directly
before the occurrence of `x`, `none` when `x` stands at the first position. -/
def prevSibling : List String → String → Option String
  | [], _ => none
  | [_], _ => none
  | a :: b :: rest, x => if b = x then some a else prevSibling (b :: rest) x

/-- Modelled from the spec (§4.4): the change record reported by
`sr_get_change_next` for a "moved" element `x` of the user-ordered list
`after` (the order after the move): the old value is the sibling `x` now
immediately follows, absent if `x` was moved to the first position; the new
value is the moved element itself.  The diff construction is not in the
repository. -/
def movedRecord (after : List String) (x : String) : ChangeRec :=
  ⟨.SR_OP_MOVED, prevSibling after x, some x⟩

/-- Insert `x` directly after the first occurrence of `anchor`. -/
def insertAfter (anchor x : String) : List String → List String
  | [] => []
  | a :: rest => if a = anchor then a :: x :: rest else a :: insertAfter anchor x rest

/-- Modelled from the spec: `sr_move_item` with `SR_MOVE_FIRST` on a
user-ordered list — the element is moved to the first position. -/
def applyMoveFirst (x : String) (l : List String) : List String :=
  x :: l.erase x

/-- Modelled from the spec: `sr_move_item` with `SR_MOVE_AFTER` — the element
is moved directly after the selected sibling. -/
def applyMoveAfter (x anchor : String) (l : List String) : List String :=
  insertAfter anchor x (l.erase x)

theorem prevSibling_of_not_mem : ∀ (l : List String) (x : String), x ∉ l →
    prevSibling l x = none
  | [], _, _ => rfl
  | [_], _, _ => rfl
  | a :: b :: rest, x, h => by
    have hb : b ≠ x := fun he => h (by simp [he])
    have hrest : x ∉ b :: rest := fun hm => h (List.mem_cons_of_mem a hm)
    rw [prevSibling, if_neg hb]
    exact prevSibling_of_not_mem (b :: rest) x hrest

theorem prevSibling_head (x : String) (l : List String) (h : x ∉ l) :
    prevSibling (x :: l) x = none := by
  cases l with
  | nil => rfl
  | cons b rest =>
    have hb : b ≠ x := fun he => h (by simp [he])
    rw [prevSibling, if_neg hb]
    exact prevSibling_of_not_mem (b :: rest) x h

theorem prevSibling_eq_none_iff (l : List String) (x : String) (hnd : l.Nodup)
    (hx : x ∈ l) : (prevSibling l x = none ↔ l.head? = some x) := by
  induction l with
  | nil => cases hx
  | cons a rest ih =>
    rcases eq_or_ne a x with rfl | hax
    · have hnotm : a ∉ rest := (List.nodup_cons.1 hnd).1
      simp [prevSibling_head a rest hnotm]
    · have hxrest : x ∈ rest := by
        rcases List.mem_cons.1 hx with h | h
        · exact absurd h.symm hax
        · exact h
      have hndrest : rest.Nodup := (List.nodup_cons.1 hnd).2
      cases rest with
      | nil => cases hxrest
      | cons b r =>
        rcases eq_or_ne b x with rfl | hbx
        · rw [prevSibling, if_pos rfl]
          simp [hax]
        · rw [prevSibling, if_neg hbx, ih hndrest hxrest]
          simp [hbx, hax]

theorem prevSibling_insertAfter (x anchor : String) :
    ∀ (l : List String), anchor ∈ l → x ∉ l →
      prevSibling (insertAfter anchor x l) x = some anchor
  | [], ha, _ => absurd ha (List.not_mem_nil anchor)
  | a :: rest, ha, hx => by
    have hax : a ≠ x := fun he => hx (by simp [he])
    rcases eq_or_ne a anchor with rfl | hne
    · rw [insertAfter, if_pos rfl, prevSibling, if_pos rfl]
    · have harest : anchor ∈ rest := by
        rcases List.mem_cons.1 ha with h | h
        · exact absurd h.symm hne
        · exact h
      have hxrest : x ∉ rest := fun hm => hx (List.mem_cons_of_mem a hm)
      rw [insertAfter, if_neg hne]
      cases rest with
      | nil => cases harest
      | cons b r =>
        have hbx : b ≠ x := fun he => hxrest (by simp [he])
        have hrec := prevSibling_insertAfter x anchor (b :: r) harest hxrest
        rcases eq_or_ne b anchor with rfl | hbne
        · rw [insertAfter, if_pos rfl] at hrec ⊢
          rw [prevSibling, if_neg hbx]
          exact hrec
        · rw [insertAfter, if_neg hbne] at hrec ⊢
          rw [prevSibling, if_neg hbx]
          exact hrec

/-- C9: for a "moved" change record over a duplicate-free user-ordered list,
the reported prior-position reference is absent exactly when the moved element
stands at the first position; a move-to-first yields an absent prior-position
reference; and a move-after-`anchor` reports exactly `anchor` — the sibling
the moved element now immediately follows. -/
theorem moved_record_prior_position (l : List String) (x anchor : String)
    (hnd : l.Nodup) (hx : x ∈ l) :
    ((movedRecord l x).old_value = none ↔ l.head? = some x) ∧
    (movedRecord (applyMoveFirst x l) x).old_value = none ∧
    (anchor ∈ l → anchor ≠ x →
      (movedRecord (applyMoveAfter x anchor l) x).old_value = some anchor) := by
  refine ⟨prevSibling_eq_none_iff l x hnd hx, ?_, ?_⟩
  · have hxe : x ∉ l.erase x := hnd.not_mem_erase
    exact prevSibling_head x (l.erase x) hxe
  · intro hanc hne
    have hxe : x ∉ l.erase x := hnd.not_mem_erase
    have hae : anchor ∈ l.erase x := (List.mem_erase_of_ne hne).2 hanc
    exact prevSibling_insertAfter x anchor (l.erase x) hae hxe

/-- C9 witness: moving `c` within `[a, b, c]`: after move-to-first the record
has no prior-position reference, and after move-after-`a` it reports `a`. -/
theorem moved_record_prior_position_witness :
    ((movedRecord ["a", "b", "c"] "c").old_value = none ↔
      (["a", "b", "c"] : List String).head? = some "c") ∧
    (movedRecord (applyMoveFirst "c" ["a", "b", "c"]) "c").old_value = none ∧
    ("a" ∈ (["a", "b", "c"] : List String) → "a" ≠ "c" →
      (movedRecord (applyMoveAfter "c" "a" ["a", "b", "c"]) "c").old_value = some "a") :=
  moved_record_prior_position ["a", "b", "c"] "c" "a" (by decide) (by decide)

/-- A filed subscription as tracked by the Change Dispatcher: the subscription
context it was filed within (`sr_subscription_ctx_t`), a serial number, and
the module subscribed to. -/
structure Subscription where
  ctx_id : Nat
  serial : Nat
  module_name : String
  deriving DecidableEq, Repr

/-- Modelled from the spec and the `SR_SUBSCR_CTX_REUSE` documentation in
`src/sysrepo.h`: subscribing with an existing context files one more
subscription within that context — the dispatcher's table grows by the new
entry.  The subscription engine is not in the repository. -/
def sr_subscribe_reuse (s : Subscription) (tbl : List Subscription) : List Subscription :=
  tbl ++ [s]

/-- Modelled from the spec and the `sr_unsubscribe` documentation in
`src/sysrepo.h`: `sr_unsubscribe` on a context unsubscribes from all
subscriptions filed within that context and releases their data — every table
entry belonging to the context is removed. -/
def sr_unsubscribe (ctx_id : Nat) (tbl : List Subscription) : List Subscription :=
  tbl.filter (fun s => s.ctx_id ≠ ctx_id)

/-- C10: one `sr_unsubscribe` call on a subscription context removes exactly
the subscriptions filed within that context — all of them, not just the most
recently filed one — leaving subscriptions of other contexts untouched; in
particular, after filing two subscriptions into one reused context, a single
`sr_unsubscribe` removes both. -/
theorem unsubscribe_removes_all_of_context (cid : Nat) (tbl : List Subscription) :
    (∀ s : Subscription, s ∈ sr_unsubscribe cid tbl ↔ (s ∈ tbl ∧ s.ctx_id ≠ cid)) ∧
    (∀ s1 s2 : Subscription, s1.ctx_id = cid → s2.ctx_id = cid →
      sr_unsubscribe cid (sr_subscribe_reuse s2 (sr_subscribe_reuse s1 tbl)) =
        sr_unsubscribe cid tbl) := by
  constructor
  · intro s
    rw [sr_unsubscribe, List.mem_filter]
    simp
  · intro s1 s2 h1 h2
    simp [sr_unsubscribe, sr_subscribe_reuse, List.filter_append, h1, h2]

/-- C10 witness: two subscriptions filed into context 5 are both removed by
one `sr_unsubscribe` call on context 5. -/
theorem unsubscribe_removes_all_of_context_witness :
    sr_unsubscribe 5 (sr_subscribe_reuse ⟨5, 2, "b"⟩
        (sr_subscribe_reuse ⟨5, 1, "a"⟩ [⟨7, 0, "m"⟩])) =
      sr_unsubscribe 5 [⟨7, 0, "m"⟩] :=
  (unsubscribe_removes_all_of_context 5 [⟨7, 0, "m"⟩]).2 ⟨5, 1, "a"⟩ ⟨5, 2, "b"⟩ rfl rfl

/-- Type of the notification event passed to application callbacks, embedded
from `sr_notif_event_t` in `src/sysrepo.h`. -/
inductive sr_notif_event_t where
  | SR_EV_UPDATE
  | SR_EV_CHANGE
  | SR_EV_DONE
  | SR_EV_ABORT
  deriving DecidableEq, Repr

/-- One observable step of an `ApplyChanges` transaction: the delivery of an
event to a subscriber's callback, or the atomic persistence of the diff by the
storage collaborator. -/
inductive TxStep where
  | deliver (ev : sr_notif_event_t) (id : Nat)
  | persist
  deriving DecidableEq, Repr

/-- A subscriber of the affected module's priority-ordered subscription list,
with the outcome its callback returns for each event.  `upd` is the
`SR_SUBSCR_UPDATE` flag, `done_only` the `SR_SUBSCR_DONE_ONLY` flag;
`abort_result` and `done_result` are logged only, never propagated. -/
structure ModSubscriber where
  id : Nat
  upd : Bool
  done_only : Bool
  update_result : Bool
  change_result : Bool
  abort_result : Bool
  done_result : Bool
  deriving DecidableEq, Repr

/-- Modelled from the spec (§4.2 `UpdatePhase`): update-phase subscribers are
invoked in priority order; a failure stops delivery and aborts the transaction
before `ChangePhase`.  The Commit Coordinator is not in the repository. -/
def updNotify : List ModSubscriber → List TxStep × Bool
  | [] => ([], true)
  | s :: rest =>
    if s.update_result then
      let q := updNotify rest
      (.deliver .SR_EV_UPDATE s.id :: q.1, q.2)
    else ([.deliver .SR_EV_UPDATE s.id], false)

/-- Modelled from the spec (§4.2 `ChangePhase`): all subscribers not flagged
done-only are invoked in priority order; a veto stops delivery — no further
change-phase subscriber is invoked. -/
def changeNotify : List ModSubscriber → List TxStep × Bool
  | [] => ([], true)
  | s :: rest =>
    if s.change_result then
      let q := changeNotify rest
      (.deliver .SR_EV_CHANGE s.id :: q.1, q.2)
    else ([.deliver .SR_EV_CHANGE s.id], false)

/-- The abort deliveries owed after a veto: every subscriber that already
observed the change event for this transaction receives the abort event. -/
def abortSteps (csteps : List TxStep) : List TxStep :=
  csteps.filterMap (fun e => match e with
    | .deliver .SR_EV_CHANGE i => some (.deliver .SR_EV_ABORT i)
    | _ => none)

/-- Modelled from the spec (§4.2 Commit Coordinator): `sr_apply_changes`
drives one transaction: update phase, change phase, then on unanimous approval
atomic persistence followed by the done phase for every subscriber (including
done-only ones); on a change-phase veto the storage is left untouched and
every already-notified change-phase subscriber receives the abort event.  The
Commit Coordinator implementation is not in the repository (only the
declaration of `sr_apply_changes` and the `sr_notif_event_t` semantics in
`src/sysrepo.h`). -/
def sr_apply_changes (subs : List ModSubscriber) (storage new_data : Nat) :
    List TxStep × Nat × sr_error_t :=
  let u := updNotify (subs.filter (fun s => s.upd))
  if u.2 then
    let c := changeNotify (subs.filter (fun s => !s.done_only))
    if c.2 then
      (u.1 ++ c.1 ++ [.persist] ++ subs.map (fun s => .deliver .SR_EV_DONE s.id),
        new_data, .SR_ERR_OK)
    else
      (u.1 ++ c.1 ++ abortSteps c.1, storage, .SR_ERR_CALLBACK_FAILED)
  else (u.1, storage, .SR_ERR_CALLBACK_FAILED)

/-- The observable steps of one `sr_apply_changes` transaction. -/
def txTrace (subs : List ModSubscriber) (storage new_data : Nat) : List TxStep :=
  (sr_apply_changes subs storage new_data).1

/-- The storage content after one `sr_apply_changes` transaction. -/
def txStorage (subs : List ModSubscriber) (storage new_data : Nat) : Nat :=
  (sr_apply_changes subs storage new_data).2.1

/-- The error code of one `sr_apply_changes` transaction. -/
def txErr (subs : List ModSubscriber) (storage new_data : Nat) : sr_error_t :=
  (sr_apply_changes subs storage new_data).2.2

/-- The phase a transaction step belongs to, in execution order. -/
def stepRank : TxStep → Nat
  | .deliver .SR_EV_UPDATE _ => 0
  | .deliver .SR_EV_CHANGE _ => 1
  | .persist => 2
  | .deliver .SR_EV_DONE _ => 3
  | .deliver .SR_EV_ABORT _ => 4

theorem updNotify_ok_iff (l : List ModSubscriber) :
    (updNotify l).2 = true ↔ ∀ s ∈ l, s.update_result = true := by
  induction l with
  | nil => simp [updNotify]
  | cons s rest ih =>
    cases h : s.update_result
    · simp [updNotify, h]
    · simp [updNotify, h, ih]

theorem changeNotify_ok_iff (l : List ModSubscriber) :
    (changeNotify l).2 = true ↔ ∀ s ∈ l, s.change_result = true := by
  induction l with
  | nil => simp [changeNotify]
  | cons s rest ih =>
    cases h : s.change_result
    · simp [changeNotify, h]
    · simp [changeNotify, h, ih]

theorem updNotify_steps (l : List ModSubscriber) :
    ∀ e ∈ (updNotify l).1, ∃ i, e = .deliver .SR_EV_UPDATE i := by
  induction l with
  | nil => simp [updNotify]
  | cons s rest ih =>
    intro e he
    cases h : s.update_result
    · rw [updNotify] at he
      simp [h] at he
      exact ⟨s.id, he⟩
    · rw [updNotify] at he
      simp [h] at he
      rcases he with he | he
      · exact ⟨s.id, he⟩
      · exact ih e he

theorem changeNotify_steps (l : List ModSubscriber) :
    ∀ e ∈ (changeNotify l).1, ∃ i, e = .deliver .SR_EV_CHANGE i := by
  induction l with
  | nil => simp [changeNotify]
  | cons s rest ih =>
    intro e he
    cases h : s.change_result
    · rw [changeNotify] at he
      simp [h] at he
      exact ⟨s.id, he⟩
    · rw [changeNotify] at he
      simp [h] at he
      rcases he with he | he
      · exact ⟨s.id, he⟩
      · exact ih e he

theorem abortSteps_cons_change (j : Nat) (rest : List TxStep) :
    abortSteps (.deliver .SR_EV_CHANGE j :: rest) =
      .deliver .SR_EV_ABORT j :: abortSteps rest := rfl

theorem abortSteps_cons_other (e : TxStep) (rest : List TxStep)
    (h : ∀ j, e ≠ .deliver .SR_EV_CHANGE j) :
    abortSteps (e :: rest) = abortSteps rest := by
  cases e with
  | persist => rfl
  | deliver ev j =>
    cases ev
    case SR_EV_CHANGE => exact absurd rfl (h j)
    all_goals rfl

theorem abortSteps_are_abort (l : List TxStep) :
    ∀ e ∈ abortSteps l, ∃ i, e = .deliver .SR_EV_ABORT i := by
  induction l with
  | nil => intro e he; cases he
  | cons a rest ih =>
    intro e he
    cases a with
    | persist =>
      rw [abortSteps_cons_other _ _ (fun j h => by cases h)] at he
      exact ih e he
    | deliver ev j =>
      cases ev
      case SR_EV_CHANGE =>
        rw [abortSteps_cons_change] at he
        rcases List.mem_cons.1 he with he | he
        · exact ⟨j, he⟩
        · exact ih e he
      all_goals
        rw [abortSteps_cons_other _ _ (fun k h => by cases h)] at he
      all_goals exact ih e he

theorem abortSteps_count (l : List TxStep) (i : Nat) :
    (abortSteps l).count (.deliver .SR_EV_ABORT i) = l.count (.deliver .SR_EV_CHANGE i) := by
  induction l with
  | nil => rfl
  | cons e rest ih =>
    cases e with
    | persist =>
      rw [abortSteps_cons_other _ _ (fun j h => by cases h)]
      simp [List.count_cons, ih]
    | deliver ev j =>
      cases ev
      case SR_EV_CHANGE =>
        rw [abortSteps_cons_change]
        simp [List.count_cons, ih]
      all_goals
        rw [abortSteps_cons_other _ _ (fun k h => by cases h)]
      all_goals simp [List.count_cons, ih]

theorem count_updNotify_ne (l : List ModSubscriber) (e : TxStep)
    (h : ∀ i, e ≠ .deliver .SR_EV_UPDATE i) : ((updNotify l).1).count e = 0 := by
  rw [List.count_eq_zero]
  intro hm
  obtain ⟨j, hj⟩ := updNotify_steps l e hm
  exact h j hj

theorem count_changeNotify_ne (l : List ModSubscriber) (e : TxStep)
    (h : ∀ i, e ≠ .deliver .SR_EV_CHANGE i) : ((changeNotify l).1).count e = 0 := by
  rw [List.count_eq_zero]
  intro hm
  obtain ⟨j, hj⟩ := changeNotify_steps l e hm
  exact h j hj

theorem count_abortSteps_ne (l : List TxStep) (e : TxStep)
    (h : ∀ i, e ≠ .deliver .SR_EV_ABORT i) : (abortSteps l).count e = 0 := by
  rw [List.count_eq_zero]
  intro hm
  obtain ⟨j, hj⟩ := abortSteps_are_abort l e hm
  exact h j hj

theorem changeNotify_count_le (l : List ModSubscriber) (i : Nat) :
    ((changeNotify l).1).count (.deliver .SR_EV_CHANGE i) ≤
      (l.map (fun s => s.id)).count i := by
  induction l with
  | nil => simp [changeNotify]
  | cons s rest ih =>
    cases h : s.change_result
    · rw [changeNotify]
      simp only [h, Bool.false_eq_true, if_false, List.map_cons, List.count_cons]
      rcases eq_or_ne s.id i with he | he <;> simp [he]
    · rw [changeNotify]
      simp only [h, if_true, List.map_cons, List.count_cons]
      rcases eq_or_ne s.id i with he | he <;> simp [he] <;> omega

theorem filter_map_abort (f : ModSubscriber → Bool) (pr : ModSubscriber → Bool)
    (hpr : ∀ s, pr { s with abort_result := f s } = pr s) (l : List ModSubscriber) :
    (l.map (fun s => { s with abort_result := f s })).filter pr =
      (l.filter pr).map (fun s => { s with abort_result := f s }) := by
  induction l with
  | nil => rfl
  | cons s rest ih =>
    simp only [List.map_cons, List.filter_cons, hpr s]
    cases h : pr s <;> simp [h, ih]

theorem updNotify_map_abort (f : ModSubscriber → Bool) (l : List ModSubscriber) :
    updNotify (l.map (fun s => { s with abort_result := f s })) = updNotify l := by
  induction l with
  | nil => rfl
  | cons s rest ih =>
    rw [List.map_cons, updNotify, updNotify]
    cases h : s.update_result <;> simp [h, ih]

theorem changeNotify_map_abort (f : ModSubscriber → Bool) (l : List ModSubscriber) :
    changeNotify (l.map (fun s => { s with abort_result := f s })) = changeNotify l := by
  induction l with
  | nil => rfl
  | cons s rest ih =>
    rw [List.map_cons, changeNotify, changeNotify]
    cases h : s.change_result <;> simp [h, ih]

theorem apply_changes_abort_irrelevant (f : ModSubscriber → Bool)
    (subs : List ModSubscriber) (storage new_data : Nat) :
    sr_apply_changes (subs.map (fun s => { s with abort_result := f s })) storage new_data =
      sr_apply_changes subs storage new_data := by
  rw [sr_apply_changes, sr_apply_changes]
  rw [filter_map_abort f (fun s => s.upd) (fun _ => rfl) subs,
    filter_map_abort f (fun s => !s.done_only) (fun _ => rfl) subs,
    updNotify_map_abort, changeNotify_map_abort]
  rw [List.map_map]
  rfl

/-- C3: if any change-phase subscriber returns failure during an
`ApplyChanges` transaction whose update phase succeeded, the storage is never
mutated by the transaction, every change-phase subscriber already notified of
the change event subsequently receives the abort event exactly once (one abort
delivery per change delivery, and none for subscribers never notified), and
the outcomes returned by abort callbacks have no effect on the transaction —
they are logged only. -/
theorem abort_on_change_phase_failure (subs : List ModSubscriber)
    (storage new_data : Nat)
    (hu : ∀ s ∈ subs.filter (fun s => s.upd), s.update_result = true)
    (hveto : ∃ s ∈ subs.filter (fun s => !s.done_only), s.change_result = false) :
    txStorage subs storage new_data = storage ∧
    txErr subs storage new_data = .SR_ERR_CALLBACK_FAILED ∧
    (∀ i : Nat, (txTrace subs storage new_data).count (.deliver .SR_EV_ABORT i) =
      (txTrace subs storage new_data).count (.deliver .SR_EV_CHANGE i)) ∧
    ((subs.map (fun s => s.id)).Nodup →
      ∀ i : Nat, (txTrace subs storage new_data).count (.deliver .SR_EV_CHANGE i) ≤ 1) ∧
    (∀ f : ModSubscriber → Bool,
      sr_apply_changes (subs.map (fun s => { s with abort_result := f s })) storage new_data =
        sr_apply_changes subs storage new_data) := by
  have hu2 : (updNotify (subs.filter (fun s => s.upd))).2 = true :=
    (updNotify_ok_iff _).2 hu
  have hc2 : (changeNotify (subs.filter (fun s => !s.done_only))).2 = false := by
    obtain ⟨s, hs, hres⟩ := hveto
    cases hv : (changeNotify (subs.filter (fun s => !s.done_only))).2
    · rfl
    · exact absurd ((changeNotify_ok_iff _).1 hv s hs) (by simp [hres])
  have hres : sr_apply_changes subs storage new_data =
      ((updNotify (subs.filter (fun s => s.upd))).1 ++
        (changeNotify (subs.filter (fun s => !s.done_only))).1 ++
        abortSteps (changeNotify (subs.filter (fun s => !s.done_only))).1,
        storage, .SR_ERR_CALLBACK_FAILED) := by
    rw [sr_apply_changes]
    simp [hu2, hc2]
  refine ⟨by rw [txStorage, hres], by rw [txErr, hres], ?_, ?_, ?_⟩
  · intro i
    rw [txTrace, hres]
    simp only [List.count_append]
    rw [abortSteps_count,
      count_updNotify_ne _ (.deliver .SR_EV_ABORT i) (fun j h => by simp at h),
      count_updNotify_ne _ (.deliver .SR_EV_CHANGE i) (fun j h => by simp at h),
      count_changeNotify_ne _ (.deliver .SR_EV_ABORT i) (fun j h => by simp at h),
      count_abortSteps_ne _ (.deliver .SR_EV_CHANGE i) (fun j h => by simp at h)]
    omega
  · intro hnd i
    rw [txTrace, hres]
    simp only [List.count_append]
    rw [count_updNotify_ne _ (.deliver .SR_EV_CHANGE i) (fun j h => by simp at h),
      count_abortSteps_ne _ (.deliver .SR_EV_CHANGE i) (fun j h => by simp at h)]
    have h1 := changeNotify_count_le (subs.filter (fun s => !s.done_only)) i
    have hsub : (subs.filter (fun s => !s.done_only)).Sublist subs :=
      List.filter_sublist subs
    have h2 : ((subs.filter (fun s => !s.done_only)).map (fun s => s.id)).count i ≤
        (subs.map (fun s => s.id)).count i :=
      (hsub.map (fun s => s.id)).count_le i
    have h3 : (subs.map (fun s => s.id)).count i ≤ 1 :=
      List.nodup_iff_count_le_one.1 hnd i
    omega
  · exact fun f => apply_changes_abort_irrelevant f subs storage new_data

/-- C3 witness: two change subscribers, the second vetoes; the storage keeps
its old content and the already-notified subscribers receive abort exactly
once. -/
theorem abort_on_change_phase_failure_witness :
    txStorage [⟨1, true, false, true, true, true, true⟩,
        ⟨2, false, false, true, false, true, true⟩] 10 20 = 10 ∧
    txErr [⟨1, true, false, true, true, true, true⟩,
        ⟨2, false, false, true, false, true, true⟩] 10 20 = .SR_ERR_CALLBACK_FAILED ∧
    (∀ i : Nat, (txTrace [⟨1, true, false, true, true, true, true⟩,
          ⟨2, false, false, true, false, true, true⟩] 10 20).count (.deliver .SR_EV_ABORT i) =
      (txTrace [⟨1, true, false, true, true, true, true⟩,
          ⟨2, false, false, true, false, true, true⟩] 10 20).count (.deliver .SR_EV_CHANGE i)) ∧
    ((([⟨1, true, false, true, true, true, true⟩,
          ⟨2, false, false, true, false, true, true⟩] :
        List ModSubscriber).map (fun s => s.id)).Nodup →
      ∀ i : Nat, (txTrace [⟨1, true, false, true, true, true, true⟩,
          ⟨2, false, false, true, false, true, true⟩] 10 20).count (.deliver .SR_EV_CHANGE i) ≤ 1) ∧
    (∀ f : ModSubscriber → Bool,
      sr_apply_changes (([⟨1, true, false, true, true, true, true⟩,
          ⟨2, false, false, true, false, true, true⟩] :
        List ModSubscriber).map (fun s => { s with abort_result := f s })) 10 20 =
        sr_apply_changes [⟨1, true, false, true, true, true, true⟩,
          ⟨2, false, false, true, false, true, true⟩] 10 20) :=
  abort_on_change_phase_failure
    [⟨1, true, false, true, true, true, true⟩, ⟨2, false, false, true, false, true, true⟩]
    10 20 (by decide) (by decide)

theorem updNotify_rank (l : List ModSubscriber) :
    ∀ e ∈ (updNotify l).1, stepRank e = 0 := by
  intro e he
  obtain ⟨i, rfl⟩ := updNotify_steps l e he
  rfl

theorem changeNotify_rank (l : List ModSubscriber) :
    ∀ e ∈ (changeNotify l).1, stepRank e = 1 := by
  intro e he
  obtain ⟨i, rfl⟩ := changeNotify_steps l e he
  rfl

theorem pairwise_of_const_rank {l : List TxStep} {k : Nat}
    (h : ∀ e ∈ l, stepRank e = k) :
    l.Pairwise (fun a b => stepRank a ≤ stepRank b) := by
  induction l with
  | nil => exact List.Pairwise.nil
  | cons a rest ih =>
    refine List.Pairwise.cons ?_ (ih (fun e he => h e (List.mem_cons_of_mem a he)))
    intro b hb
    rw [h a (List.mem_cons_self a rest), h b (List.mem_cons_of_mem a hb)]

theorem rank_lt_index_lt (l : List TxStep)
    (hp : l.Pairwise (fun a b => stepRank a ≤ stepRank b))
    (i j : Nat) (hi : i < l.length) (hj : j < l.length)
    (hr : stepRank (l.get ⟨i, hi⟩) < stepRank (l.get ⟨j, hj⟩)) : i < j := by
  rcases lt_trichotomy i j with h | h | h
  · exact h
  · subst h
    exact absurd hr (lt_irrefl _)
  · have hle := List.pairwise_iff_get.1 hp ⟨j, hj⟩ ⟨i, hi⟩ h
    omega

/-- C4: in every successful `ApplyChanges` transaction the trace is ordered by
phase — every update-phase delivery strictly precedes every change-phase
delivery, every change-phase delivery strictly precedes the persistence step,
and persistence strictly precedes every done-phase delivery (any two steps of
different phases occur in phase order), and persistence happens exactly
once. -/
theorem phase_ordering (subs : List ModSubscriber) (storage new_data : Nat)
    (h : txErr subs storage new_data = .SR_ERR_OK) :
    (txTrace subs storage new_data).Pairwise (fun a b => stepRank a ≤ stepRank b) ∧
    (txTrace subs storage new_data).count .persist = 1 ∧
    (∀ (i j : Nat) (hi : i < (txTrace subs storage new_data).length)
        (hj : j < (txTrace subs storage new_data).length),
      stepRank ((txTrace subs storage new_data).get ⟨i, hi⟩) <
        stepRank ((txTrace subs storage new_data).get ⟨j, hj⟩) → i < j) := by
  cases hu2 : (updNotify (subs.filter (fun s => s.upd))).2 with
  | false =>
    rw [txErr, sr_apply_changes] at h
    simp [hu2] at h
  | true =>
  cases hc2 : (changeNotify (subs.filter (fun s => !s.done_only))).2 with
  | false =>
    rw [txErr, sr_apply_changes] at h
    simp [hu2, hc2] at h
  | true =>
  have hres : txTrace subs storage new_data =
      (updNotify (subs.filter (fun s => s.upd))).1 ++
        ((changeNotify (subs.filter (fun s => !s.done_only))).1 ++
          ([.persist] ++ subs.map (fun s => .deliver .SR_EV_DONE s.id))) := by
    rw [txTrace, sr_apply_changes]
    simp [hu2, hc2]
  have h3 : ∀ e ∈ subs.map (fun s => TxStep.deliver .SR_EV_DONE s.id),
      stepRank e = 3 := by
    intro e he
    obtain ⟨s, _, rfl⟩ := List.mem_map.1 he
    rfl
  have hpair : (txTrace subs storage new_data).Pairwise
      (fun a b => stepRank a ≤ stepRank b) := by
    rw [hres]
    refine List.pairwise_append.2 ⟨pairwise_of_const_rank (updNotify_rank _), ?_, ?_⟩
    · refine List.pairwise_append.2 ⟨pairwise_of_const_rank (changeNotify_rank _), ?_, ?_⟩
      · refine List.pairwise_append.2
          ⟨List.pairwise_singleton _ _, pairwise_of_const_rank h3, ?_⟩
        intro a ha b hb
        rw [List.mem_singleton] at ha
        subst ha
        rw [h3 b hb]
        decide
      · intro a ha b hb
        rw [changeNotify_rank _ a ha]
        rcases List.mem_append.1 hb with hb | hb
        · rw [List.mem_singleton] at hb
          subst hb
          decide
        · rw [h3 b hb]
          omega
    · intro a ha b hb
      rw [updNotify_rank _ a ha]
      exact Nat.zero_le _
  refine ⟨hpair, ?_, fun i j hi hj hr => rank_lt_index_lt _ hpair i j hi hj hr⟩
  rw [hres]
  simp only [List.count_append]
  rw [count_updNotify_ne _ .persist (fun j hj => by simp at hj),
    count_changeNotify_ne _ .persist (fun j hj => by simp at hj)]
  have hd : (subs.map (fun s => TxStep.deliver .SR_EV_DONE s.id)).count .persist = 0 := by
    rw [List.count_eq_zero]
    intro hm
    obtain ⟨s, _, hs⟩ := List.mem_map.1 hm
    cases hs
  rw [hd]
  simp

/-- C4 witness: one update-phase subscriber and one plain subscriber, all
approving: the transaction succeeds and its trace is phase-ordered with one
persistence step. -/
theorem phase_ordering_witness :
    (txTrace [⟨1, true, false, true, true, true, true⟩,
        ⟨2, false, false, true, true, true, true⟩] 10 20).Pairwise
      (fun a b => stepRank a ≤ stepRank b) ∧
    (txTrace [⟨1, true, false, true, true, true, true⟩,
        ⟨2, false, false, true, true, true, true⟩] 10 20).count .persist = 1 ∧
    (∀ (i j : Nat)
        (hi : i < (txTrace [⟨1, true, false, true, true, true, true⟩,
          ⟨2, false, false, true, true, true, true⟩] 10 20).length)
        (hj : j < (txTrace [⟨1, true, false, true, true, true, true⟩,
          ⟨2, false, false, true, true, true, true⟩] 10 20).length),
      stepRank ((txTrace [⟨1, true, false, true, true, true, true⟩,
          ⟨2, false, false, true, true, true, true⟩] 10 20).get ⟨i, hi⟩) <
        stepRank ((txTrace [⟨1, true, false, true, true, true, true⟩,
          ⟨2, false, false, true, true, true, true⟩] 10 20).get ⟨j, hj⟩) → i < j) :=
  phase_ordering [⟨1, true, false, true, true, true, true⟩,
    ⟨2, false, false, true, true, true, true⟩] 10 20 (by decide)
